import Mathlib

/-!
Shallow embedding of the `EarlyAllocator` bump allocator from
`arceos/modules/bump_allocator/src/lib.rs`.

Design of the embedding:
* `usize` values are natural numbers below `W = 2 ^ 64`; the wrapping
  (release-mode) machine arithmetic of the source is modelled explicitly with
  `wadd`, `wsub`, `wmul` (all reduce modulo `W`) and `usizeNot` (bitwise NOT,
  i.e. XOR against the all-ones word).
* `AtomicUsize` fields with `Ordering::Relaxed` loads/stores are plain state
  fields: all claims are about sequential executions.
* Fallible operations return the produced value together with the resulting
  allocator state; `alloc` additionally wraps its outcome in `Option`, where
  `none` models the panic of `NonNull::new(ptr as *mut u8).unwrap()` when the
  computed pointer is null.
-/

namespace BumpAlloc

/-- Number of values of `usize` (64-bit machine words). -/
def W : Nat := 2 ^ 64

/-- Wrapping addition on `usize`. -/
def wadd (x y : Nat) : Nat := (x + y) % W

/-- Wrapping subtraction on `usize`. -/
def wsub (x y : Nat) : Nat := (x + (W - y % W)) % W

/-- Wrapping multiplication on `usize`. -/
def wmul (x y : Nat) : Nat := (x * y) % W

/-- Bitwise NOT on `usize` (XOR with the all-ones 64-bit word). -/
def usizeNot (x : Nat) : Nat := (W - 1) ^^^ x

/-- The five `AtomicUsize` fields of `EarlyAllocator<PAGE_SIZE>`. -/
structure EarlyAllocator where
  start : Nat
  size : Nat
  b_pos : Nat
  p_pos : Nat
  count : Nat
deriving DecidableEq

/-- `allocator::AllocError` as used by this crate: only `NoMemory` occurs. -/
inductive AllocError where
  | NoMemory
deriving DecidableEq

/-- `BaseAllocator::init`: store `start`, `size`, reset the byte cursor to
`start`, the page cursor to `start + size`, and the live count to zero. -/
def init (_s : EarlyAllocator) (start size : Nat) : EarlyAllocator :=
  { start := start
    size := size
    b_pos := start
    p_pos := wadd start size
    count := 0 }

/-- `BaseAllocator::add_memory`: unconditionally `Err(NoMemory)`, state kept. -/
def add_memory (s : EarlyAllocator) (_start _size : Nat) :
    Except AllocError Unit × EarlyAllocator :=
  (Except.error AllocError.NoMemory, s)

/-- The mask `!(align - 1)` used to round addresses down. -/
def bumpMask (align : Nat) : Nat := usizeNot (wsub align 1)

/-- `(b_pos + align - 1) & !(align - 1)` with wrapping arithmetic: the aligned
candidate returned by a byte allocation. -/
def allocCand (b_pos align : Nat) : Nat :=
  wsub (wadd b_pos align) 1 &&& bumpMask align

/-- `new_b_pos + size`: the candidate new byte cursor of a byte allocation. -/
def allocEnd (b_pos align size : Nat) : Nat :=
  wadd (allocCand b_pos align) size

/-- `ByteAllocator::alloc` on a layout of the given size and alignment.
`none` models the panic of `NonNull::new(ptr as *mut u8).unwrap()` when the
returned pointer would be null. -/
def alloc (s : EarlyAllocator) (size align : Nat) :
    Option (Except AllocError Nat × EarlyAllocator) :=
  let new_b_pos := allocCand s.b_pos align
  let end_b_pos := allocEnd s.b_pos align size
  if s.p_pos < end_b_pos then
    some (Except.error AllocError.NoMemory, s)
  else if new_b_pos = 0 then
    none
  else
    some (Except.ok new_b_pos,
      { s with b_pos := end_b_pos, count := wadd s.count 1 })

/-- `ByteAllocator::dealloc`.  The pointer and layout arguments are ignored by
the source.  `fetch_sub` returns the value previously stored, so `prev` (the
source's rebound `count`) is the pre-decrement value. -/
def dealloc (s : EarlyAllocator) (_pos _layout_size _layout_align : Nat) :
    EarlyAllocator :=
  if s.count = 0 then
    s
  else
    let prev := s.count
    let s1 := { s with count := wsub s.count 1 }
    if prev = 0 then { s1 with b_pos := s1.start } else s1

/-- `ByteAllocator::total_bytes`. -/
def total_bytes (s : EarlyAllocator) : Nat := s.size

/-- `ByteAllocator::used_bytes`: `b_pos - start`. -/
def used_bytes (s : EarlyAllocator) : Nat := wsub s.b_pos s.start

/-- `ByteAllocator::available_bytes`: `p_pos - b_pos`. -/
def available_bytes (s : EarlyAllocator) : Nat := wsub s.p_pos s.b_pos

/-- `PageAllocator::alloc_pages`.  `1 << align_pow2` in release mode shifts by
`align_pow2 % 64`; `num_pages * PAGE_SIZE` and `current - size` wrap. -/
def alloc_pages (PAGE_SIZE : Nat) (s : EarlyAllocator)
    (num_pages align_pow2 : Nat) : Except AllocError Nat × EarlyAllocator :=
  let align := 1 <<< (align_pow2 % 64)
  let size := wmul num_pages PAGE_SIZE
  let current := s.p_pos
  let aligned := wsub current size &&& bumpMask align
  if aligned < s.b_pos ∨ s.p_pos < aligned then
    (Except.error AllocError.NoMemory, s)
  else
    (Except.ok aligned, { s with p_pos := aligned })

/-- `PageAllocator::dealloc_pages`: a no-op. -/
def dealloc_pages (s : EarlyAllocator) (_pos _num_pages : Nat) :
    EarlyAllocator := s

/-- `PageAllocator::total_pages`. -/
def total_pages (PAGE_SIZE : Nat) (s : EarlyAllocator) : Nat :=
  s.size / PAGE_SIZE

/-- `PageAllocator::used_pages`: `(start + size - p_pos) / PAGE_SIZE`. -/
def used_pages (PAGE_SIZE : Nat) (s : EarlyAllocator) : Nat :=
  wsub (wadd s.start s.size) s.p_pos / PAGE_SIZE

/-- `PageAllocator::available_pages`: `(p_pos - b_pos) / PAGE_SIZE`. -/
def available_pages (PAGE_SIZE : Nat) (s : EarlyAllocator) : Nat :=
  wsub s.p_pos s.b_pos / PAGE_SIZE

/-- The layout invariant of the spec: `start ≤ b_pos ≤ p_pos ≤ start + size`. -/
def Inv (s : EarlyAllocator) : Prop :=
  s.start ≤ s.b_pos ∧ s.b_pos ≤ s.p_pos ∧ s.p_pos ≤ s.start + s.size

instance (s : EarlyAllocator) : Decidable (Inv s) := by
  unfold Inv; infer_instance

/-- Mathematical round-up of `x` to a multiple of `a`: the value that
`(x + a - 1) & !(a - 1)` computes for power-of-two `a` absent wraparound. -/
def alignUpN (x a : Nat) : Nat := (x + a - 1) - (x + a - 1) % a

/-- Run a sequence of byte-allocation requests, each a `(size, k)` pair
requesting alignment `2 ^ k`; collect the returned `(addr, size)` ranges.
`none` if any call fails or panics. -/
def runAllocs : EarlyAllocator → List (Nat × Nat) →
    Option (List (Nat × Nat) × EarlyAllocator)
  | s, [] => some ([], s)
  | s, (size, k) :: rest =>
    match alloc s size (2 ^ k) with
    | some (Except.ok addr, s2) =>
      match runAllocs s2 rest with
      | some (rs, s3) => some ((addr, size) :: rs, s3)
      | none => none
    | _ => none

/-- Precondition of the sequence claim, checked along the run: every request
has a power-of-two `usize` alignment (`k < 64`) and its aligned size fits in
the bytes available at call time (aligned candidate end at most `p_pos`). -/
def fitsAll : EarlyAllocator → List (Nat × Nat) → Bool
  | _, [] => true
  | s, (size, k) :: rest =>
    decide (k < 64) &&
    decide (alignUpN s.b_pos (2 ^ k) + size ≤ s.p_pos) &&
    fitsAll { s with b_pos := alignUpN s.b_pos (2 ^ k) + size,
                     count := wadd s.count 1 } rest

/-! ### Arithmetic facts about the wrapping operations and the masks -/

theorem W_pos : 0 < W := by unfold W; positivity

theorem two_pow_le_W {k : Nat} (hk : k ≤ 64) : 2 ^ k ≤ W :=
  Nat.pow_le_pow_right (by omega) hk

/-- Bitwise NOT of the low-ones mask `2 ^ k - 1` is the high-ones mask. -/
theorem usizeNot_two_pow_sub_one {k : Nat} (hk : k ≤ 64) :
    usizeNot (2 ^ k - 1) = W - 2 ^ k := by
  have hk1 : 1 ≤ 2 ^ k := Nat.one_le_two_pow
  have hkW : 2 ^ k ≤ W := two_pow_le_W hk
  have h1 : 2 ^ k - 1 < 2 ^ 64 := by
    have : W = 2 ^ 64 := rfl
    omega
  apply Nat.eq_of_testBit_eq
  intro i
  have hW : W - 2 ^ k = 2 ^ 64 - ((2 ^ k - 1) + 1) := by
    have : W = 2 ^ 64 := rfl
    omega
  rw [hW, Nat.testBit_two_pow_sub_succ h1, usizeNot,
    show W - 1 = 2 ^ 64 - 1 from rfl, Nat.testBit_xor,
    Nat.testBit_two_pow_sub_one, Nat.testBit_two_pow_sub_one]
  by_cases h64 : i < 64 <;> by_cases hik : i < k
  · simp [h64, hik]
  · simp [h64, hik]
  · omega
  · simp [h64, hik]

/-- Masking a 64-bit value with the high-ones mask rounds it down to a
multiple of `2 ^ k`. -/
theorem land_mask_eq {x k : Nat} (hx : x < W) (hk : k ≤ 64) :
    x &&& (W - 2 ^ k) = 2 ^ k * (x / 2 ^ k) := by
  have hk1 : 1 ≤ 2 ^ k := Nat.one_le_two_pow
  have h1 : 2 ^ k - 1 < 2 ^ 64 := by
    have : 2 ^ k ≤ W := two_pow_le_W hk
    have : W = 2 ^ 64 := rfl
    omega
  have hW : W - 2 ^ k = 2 ^ 64 - ((2 ^ k - 1) + 1) := by
    have : 2 ^ k ≤ W := two_pow_le_W hk
    have : W = 2 ^ 64 := rfl
    omega
  apply Nat.eq_of_testBit_eq
  intro i
  rw [Nat.testBit_and, hW, Nat.testBit_two_pow_sub_succ h1,
    Nat.testBit_two_pow_sub_one, Nat.testBit_mul_pow_two,
    ← Nat.shiftRight_eq_div_pow, Nat.testBit_shiftRight]
  by_cases hik : k ≤ i
  · by_cases h64 : i < 64
    · have hi : k + (i - k) = i := by omega
      simp [hik, h64, hi, Nat.not_lt.2 hik]
    · have hxi : Nat.testBit x i = false := by
        apply Nat.testBit_lt_two_pow
        calc x < W := hx
          _ = 2 ^ 64 := rfl
          _ ≤ 2 ^ i := Nat.pow_le_pow_right (by omega) (by omega)
      have hi : k + (i - k) = i := by omega
      simp [h64, hi, hxi]
  · simp [hik, Nat.lt_of_not_le hik]

theorem two_pow_mul_div_eq (x a : Nat) (_ha : 0 < a) :
    a * (x / a) = x - x % a := by
  have := Nat.div_add_mod x a
  omega

/-- Bounds for the mathematical round-up. -/
theorem alignUpN_bounds (x a : Nat) (ha : 1 ≤ a) :
    x ≤ alignUpN x a ∧ alignUpN x a ≤ x + a - 1 := by
  have h := Nat.mod_lt (x + a - 1) (y := a) (by omega)
  unfold alignUpN
  omega

/-- The round-up is a multiple of the alignment. -/
theorem alignUpN_dvd (x a : Nat) (ha : 1 ≤ a) : a ∣ alignUpN x a := by
  have := Nat.div_add_mod (x + a - 1) a
  exact ⟨(x + a - 1) / a, by unfold alignUpN; omega⟩

/-- The machine subtraction `align - 1` for a power-of-two alignment. -/
theorem wsub_two_pow_one {k : Nat} (hk : k ≤ 64) :
    wsub (2 ^ k) 1 = 2 ^ k - 1 := by
  have hk1 : 1 ≤ 2 ^ k := Nat.one_le_two_pow
  have hkW : 2 ^ k ≤ W := two_pow_le_W hk
  have hW : 1 < W := by unfold W; norm_num
  unfold wsub
  have h1 : 1 % W = 1 := Nat.mod_eq_of_lt (by omega)
  rw [h1, show 2 ^ k + (W - 1) = (2 ^ k - 1) + W by omega,
    Nat.add_mod_right]
  exact Nat.mod_eq_of_lt (by omega)

/-- The mask used by the allocator, for a power-of-two alignment. -/
theorem bumpMask_two_pow {k : Nat} (hk : k ≤ 64) :
    bumpMask (2 ^ k) = W - 2 ^ k := by
  rw [bumpMask, wsub_two_pow_one hk, usizeNot_two_pow_sub_one hk]

/-- Absent wraparound, the machine-computed byte-allocation candidate
`(b_pos + align - 1) & !(align - 1)` is the mathematical round-up. -/
theorem allocCand_eq_alignUpN {x k : Nat} (hk : k ≤ 64)
    (hno : x + 2 ^ k ≤ W) :
    allocCand x (2 ^ k) = alignUpN x (2 ^ k) := by
  have hk1 : 1 ≤ 2 ^ k := Nat.one_le_two_pow
  have hW : 1 < W := by unfold W; norm_num
  have ht : wsub (wadd x (2 ^ k)) 1 = x + 2 ^ k - 1 := by
    unfold wadd wsub
    have h1 : 1 % W = 1 := Nat.mod_eq_of_lt (by omega)
    rw [h1, Nat.mod_add_mod,
      show x + 2 ^ k + (W - 1) = (x + 2 ^ k - 1) + W by omega,
      Nat.add_mod_right]
    exact Nat.mod_eq_of_lt (by omega)
  rw [allocCand, ht, bumpMask_two_pow hk,
    land_mask_eq (by omega) hk, two_pow_mul_div_eq _ _ (by omega)]
  rfl

/-- If the mathematical round-up of `x` fits below `W`, the machine
computation of the candidate could not have wrapped: `x + 2 ^ k ≤ W`. -/
theorem alignUpN_no_wrap {x k : Nat} (hk : k ≤ 64)
    (hfit : alignUpN x (2 ^ k) < W) : x + 2 ^ k ≤ W := by
  by_contra hcon
  push_neg at hcon
  have hdvd : 2 ^ k ∣ alignUpN x (2 ^ k) :=
    alignUpN_dvd _ _ Nat.one_le_two_pow
  have hdW : (2 ^ k : Nat) ∣ W := pow_dvd_pow 2 hk
  have hbd := alignUpN_bounds x (2 ^ k) Nat.one_le_two_pow
  have hsub : (2 ^ k : Nat) ∣ (W - alignUpN x (2 ^ k)) := Nat.dvd_sub' hdW hdvd
  have : 2 ^ k ≤ W - alignUpN x (2 ^ k) := Nat.le_of_dvd (by omega) hsub
  omega

/-- A byte allocation whose aligned request fits in the available bytes
succeeds, returns the round-up of `b_pos`, and advances `b_pos` past the
returned block. -/
theorem alloc_step (s : EarlyAllocator) (size k : Nat)
    (hk : k < 64) (hb : 1 ≤ s.b_pos) (hp : s.p_pos < W)
    (hfit : alignUpN s.b_pos (2 ^ k) + size ≤ s.p_pos) :
    alloc s size (2 ^ k) =
      some (Except.ok (alignUpN s.b_pos (2 ^ k)),
        { s with b_pos := alignUpN s.b_pos (2 ^ k) + size,
                 count := wadd s.count 1 }) := by
  have hno : s.b_pos + 2 ^ k ≤ W := alignUpN_no_wrap (by omega) (by omega)
  have hcand := allocCand_eq_alignUpN (x := s.b_pos) (by omega) hno
  have hbd := alignUpN_bounds s.b_pos (2 ^ k) Nat.one_le_two_pow
  have hend : allocEnd s.b_pos (2 ^ k) size =
      alignUpN s.b_pos (2 ^ k) + size := by
    unfold allocEnd
    rw [hcand]
    exact Nat.mod_eq_of_lt (by omega)
  simp only [alloc, hend, hcand]
  rw [if_neg (by omega), if_neg (by omega)]

/-- Running a fitting request sequence succeeds; the byte cursor only grows,
the page cursor is untouched, every returned range lies between the initial
and the final byte cursor, and the ranges are returned in increasing order. -/
theorem runAllocs_spec (reqs : List (Nat × Nat)) :
    ∀ s : EarlyAllocator, 1 ≤ s.b_pos → s.p_pos < W →
    fitsAll s reqs = true →
    ∃ rs s2, runAllocs s reqs = some (rs, s2) ∧
      s.b_pos ≤ s2.b_pos ∧ s2.p_pos = s.p_pos ∧
      (∀ p ∈ rs, s.b_pos ≤ p.1 ∧ p.1 + p.2 ≤ s2.b_pos) ∧
      List.Pairwise (fun p q => p.1 + p.2 ≤ q.1) rs := by
  induction reqs with
  | nil =>
    intro s _ _ _
    exact ⟨[], s, rfl, le_refl _, rfl, by simp, List.Pairwise.nil⟩
  | cons hd tl ih =>
    obtain ⟨size, k⟩ := hd
    intro s hb hp hfits
    simp only [fitsAll, Bool.and_eq_true, decide_eq_true_eq] at hfits
    obtain ⟨⟨hk, hfit⟩, hrest⟩ := hfits
    have hstep := alloc_step s size k hk hb hp hfit
    have hbd := alignUpN_bounds s.b_pos (2 ^ k) Nat.one_le_two_pow
    obtain ⟨rs, s2, hrun, hmono, hpp, hin, hpw⟩ :=
      ih { s with b_pos := alignUpN s.b_pos (2 ^ k) + size,
                  count := wadd s.count 1 }
        (by show 1 ≤ alignUpN s.b_pos (2 ^ k) + size; omega)
        (by show s.p_pos < W; exact hp)
        hrest
    have hmono2 : alignUpN s.b_pos (2 ^ k) + size ≤ s2.b_pos := hmono
    have hpp2 : s2.p_pos = s.p_pos := hpp
    have hin2 : ∀ p ∈ rs,
        alignUpN s.b_pos (2 ^ k) + size ≤ p.1 ∧ p.1 + p.2 ≤ s2.b_pos := hin
    refine ⟨(alignUpN s.b_pos (2 ^ k), size) :: rs, s2, ?_, by omega, hpp2,
      ?_, ?_⟩
    · simp only [runAllocs, hstep, hrun]
    · intro p hpmem
      rcases List.mem_cons.1 hpmem with rfl | htl
      · exact ⟨hbd.1, hmono2⟩
      · have hq := hin2 p htl
        exact ⟨by omega, hq.2⟩
    · refine List.Pairwise.cons ?_ hpw
      intro q hq
      exact (hin2 q hq).1

/-! ### Claim theorems -/

/-- Claim C2 as stated is false: the allocator initialized over a region
starting at address 0 is initialized (`size > 0`) and a single one-byte,
align-1 request fits in the available bytes, yet the run does not succeed —
the call computes pointer 0 and panics in
`NonNull::new(0 as *mut u8).unwrap()` (`none`), so not every call
succeeds. -/
theorem alloc_sequence_panics_at_zero_start :
    fitsAll (init ⟨0, 0, 0, 0, 0⟩ 0 256) [(1, 0)] = true ∧
    runAllocs (init ⟨0, 0, 0, 0, 0⟩ 0 256) [(1, 0)] = none :=
  ⟨by decide, rfl⟩

/-- Claim C2, amended: for every initialized allocator whose byte cursor is
nonzero (excluding the region-starts-at-0 case of the counterexample, where a
fitting allocation panics on the null pointer) and whose page cursor is a
machine word, and every sequence of byte allocation requests with
power-of-two alignments whose aligned sizes fit in the available bytes at
each call time, every `alloc` call succeeds, and the returned
`[addr, addr + size)` ranges are pairwise disjoint. -/
theorem alloc_sequence_disjoint (s : EarlyAllocator) (reqs : List (Nat × Nat))
    (hb : 1 ≤ s.b_pos) (hp : s.p_pos < W) (hfits : fitsAll s reqs = true) :
    ∃ rs s2, runAllocs s reqs = some (rs, s2) ∧
      List.Pairwise (fun p q => p.1 + p.2 ≤ q.1 ∨ q.1 + q.2 ≤ p.1) rs := by
  obtain ⟨rs, s2, hrun, _, _, _, hpw⟩ := runAllocs_spec reqs s hb hp hfits
  exact ⟨rs, s2, hrun, hpw.imp (fun h => Or.inl h)⟩

theorem alloc_sequence_disjoint_witness :
    1 ≤ (⟨4096, 65536, 4096, 69632, 0⟩ : EarlyAllocator).b_pos ∧
    (⟨4096, 65536, 4096, 69632, 0⟩ : EarlyAllocator).p_pos < W ∧
    fitsAll ⟨4096, 65536, 4096, 69632, 0⟩ [(48, 3), (5, 2), (100, 0)] = true ∧
    (∃ rs s2,
      runAllocs ⟨4096, 65536, 4096, 69632, 0⟩ [(48, 3), (5, 2), (100, 0)] =
        some (rs, s2) ∧
      List.Pairwise (fun p q => p.1 + p.2 ≤ q.1 ∨ q.1 + q.2 ≤ p.1) rs) :=
  ⟨by decide, by decide, by decide,
   alloc_sequence_disjoint _ _ (by decide) (by decide) (by decide)⟩

/-- Claim C8: `add_memory` always fails with `NoMemory` and leaves every field
of the allocator (`start`, `size`, `b_pos`, `p_pos`, `count`) unchanged,
whatever the arguments are. -/
theorem add_memory_always_fails (s : EarlyAllocator) (a b : Nat) :
    add_memory s a b = (Except.error AllocError.NoMemory, s) := rfl

/-- Claim C9: when `count = 0`, `dealloc` is a no-op for any pointer and
layout arguments: the count stays zero (no underflow) and `b_pos`, `p_pos`,
`start`, `size` are unchanged. -/
theorem dealloc_count_zero_noop (s : EarlyAllocator) (p lsz lal : Nat)
    (h : s.count = 0) : dealloc s p lsz lal = s := by
  simp [dealloc, h]

theorem dealloc_count_zero_noop_witness :
    (⟨4096, 256, 4099, 4352, 0⟩ : EarlyAllocator).count = 0 ∧
    dealloc ⟨4096, 256, 4099, 4352, 0⟩ 4096 1 1 = ⟨4096, 256, 4099, 4352, 0⟩ :=
  ⟨rfl, dealloc_count_zero_noop _ 4096 1 1 rfl⟩

/-- Claim C1 fails on the code: after one successful byte allocation followed
by one `dealloc`, the live count is back to zero but `b_pos` is not reset to
`start` — `dealloc` tests the value returned by `fetch_sub`, which is the
pre-decrement count and is necessarily nonzero there, so the reset branch
never runs and `used_bytes` stays at 1 instead of returning to 0. -/
theorem dealloc_never_resets_b_pos :
    alloc ⟨4096, 256, 4096, 4352, 0⟩ 1 1 =
      some (Except.ok 4096, ⟨4096, 256, 4097, 4352, 1⟩) ∧
    dealloc ⟨4096, 256, 4097, 4352, 1⟩ 4096 1 1 = ⟨4096, 256, 4097, 4352, 0⟩ ∧
    used_bytes (dealloc ⟨4096, 256, 4097, 4352, 1⟩ 4096 1 1) = 1 := by
  refine ⟨rfl, by decide, by decide⟩

/-- Claim C4: a byte allocation whose aligned candidate end exceeds `p_pos`
returns `NoMemory` and the resulting state is exactly the input state, so
`b_pos`, `p_pos` and `count` are all unchanged. -/
theorem alloc_fail_no_mutation (s : EarlyAllocator) (size align : Nat)
    (h : s.p_pos < allocEnd s.b_pos align size) :
    alloc s size align = some (Except.error AllocError.NoMemory, s) := by
  simp [alloc, h]

theorem alloc_fail_no_mutation_witness :
    (⟨0, 0, 5, 0, 0⟩ : EarlyAllocator).p_pos < allocEnd 5 1 0 ∧
    alloc ⟨0, 0, 5, 0, 0⟩ 0 1 =
      some (Except.error AllocError.NoMemory, ⟨0, 0, 5, 0, 0⟩) :=
  ⟨by decide, alloc_fail_no_mutation _ 0 1 (by decide)⟩

/-- Claim C7: after `init(start, size)` with `size > 0` (and `start + size`
representable in `usize`), the state satisfies `b_pos = start`,
`p_pos = start + size`, `count = 0`, and the observers report
`used_bytes = 0`, `available_bytes = size`, `total_bytes = size`. -/
theorem init_spec (s : EarlyAllocator) (start size : Nat)
    (hsz : 0 < size) (hno : start + size < W) :
    (init s start size).b_pos = start ∧
    (init s start size).p_pos = start + size ∧
    (init s start size).count = 0 ∧
    used_bytes (init s start size) = 0 ∧
    available_bytes (init s start size) = size ∧
    total_bytes (init s start size) = size := by
  have hp : wadd start size = start + size := Nat.mod_eq_of_lt hno
  refine ⟨rfl, hp, rfl, ?_, ?_, rfl⟩
  · show wsub start start = 0
    unfold wsub
    have hs : start % W = start := Nat.mod_eq_of_lt (by omega)
    rw [hs, show start + (W - start) = W by omega, Nat.mod_self]
  · show wsub (init s start size).p_pos start = size
    rw [show (init s start size).p_pos = wadd start size from rfl, hp]
    unfold wsub
    have hs : start % W = start := Nat.mod_eq_of_lt (by omega)
    rw [hs, show start + size + (W - start) = size + W by omega,
      Nat.add_mod_right]
    exact Nat.mod_eq_of_lt (by omega)

/-- Claim C3: `alloc_pages(k, a)` with `k ≥ 1` and a valid shift amount
`a < 64` either returns the address `(p_pos - k * PAGE_SIZE) & !(2 ^ a - 1)`
(computed with wrapping arithmetic), which is `2 ^ a`-aligned and satisfies
`b_pos ≤ addr ≤ p_pos`, and sets `p_pos := addr` leaving every other field
unchanged; or it returns `NoMemory` and leaves the state unchanged. -/
theorem alloc_pages_spec (PS : Nat) (s : EarlyAllocator) (k a : Nat)
    (_hk : 1 ≤ k) (ha : a < 64) :
    (let addr := wsub s.p_pos (wmul k PS) &&& bumpMask (2 ^ a)
     s.b_pos ≤ addr ∧ addr ≤ s.p_pos ∧ addr % 2 ^ a = 0 ∧
       alloc_pages PS s k a = (Except.ok addr, { s with p_pos := addr })) ∨
    alloc_pages PS s k a = (Except.error AllocError.NoMemory, s) := by
  have hsh : 1 <<< (a % 64) = 2 ^ a := by
    rw [Nat.mod_eq_of_lt ha, Nat.one_shiftLeft]
  by_cases h : wsub s.p_pos (wmul k PS) &&& bumpMask (2 ^ a) < s.b_pos ∨
      s.p_pos < wsub s.p_pos (wmul k PS) &&& bumpMask (2 ^ a)
  · right
    simp only [alloc_pages, hsh]
    rw [if_pos h]
  · left
    refine ⟨by omega, by omega, ?_, ?_⟩
    · have hx : wsub s.p_pos (wmul k PS) < W :=
        Nat.mod_lt _ (by unfold W; positivity)
      rw [bumpMask_two_pow (by omega), land_mask_eq hx (by omega),
        Nat.mul_mod_right]
    · simp only [alloc_pages, hsh]
      rw [if_neg h]

theorem alloc_pages_spec_witness :
    1 ≤ 1 ∧ 12 < 64 ∧
    ((let addr := wsub (69632 : Nat) (wmul 1 4096) &&& bumpMask (2 ^ 12)
      (⟨4096, 65536, 4096, 69632, 0⟩ : EarlyAllocator).b_pos ≤ addr ∧
        addr ≤ (⟨4096, 65536, 4096, 69632, 0⟩ : EarlyAllocator).p_pos ∧
        addr % 2 ^ 12 = 0 ∧
        alloc_pages 4096 ⟨4096, 65536, 4096, 69632, 0⟩ 1 12 =
          (Except.ok addr, { (⟨4096, 65536, 4096, 69632, 0⟩ : EarlyAllocator) with
            p_pos := addr })) ∨
     alloc_pages 4096 ⟨4096, 65536, 4096, 69632, 0⟩ 1 12 =
       (Except.error AllocError.NoMemory, ⟨4096, 65536, 4096, 69632, 0⟩)) :=
  ⟨by decide, by decide,
   alloc_pages_spec 4096 ⟨4096, 65536, 4096, 69632, 0⟩ 1 12 (by decide) (by decide)⟩

/-- Claim C10: a zero-page request is not a no-op.  `alloc_pages(0, a)`
computes the candidate `p_pos & !(2 ^ a - 1)`; whenever that candidate is at
least `b_pos` the call succeeds and lowers `p_pos` to the candidate (else it
fails, state unchanged).  A concrete instance shows a zero-page request
consuming memory: `used_pages` grows from 0 to 1. -/
theorem alloc_pages_zero_consumes (PS : Nat) (s : EarlyAllocator) (a : Nat)
    (ha : a < 64) (hp : s.p_pos < W) :
    (s.b_pos ≤ s.p_pos &&& bumpMask (2 ^ a) →
      alloc_pages PS s 0 a =
        (Except.ok (s.p_pos &&& bumpMask (2 ^ a)),
         { s with p_pos := s.p_pos &&& bumpMask (2 ^ a) })) ∧
    (s.p_pos &&& bumpMask (2 ^ a) < s.b_pos →
      alloc_pages PS s 0 a = (Except.error AllocError.NoMemory, s)) ∧
    used_pages 4096 (alloc_pages 4096 ⟨4096, 1048576, 4096, 1052671, 0⟩ 0 12).2 = 1 ∧
    used_pages 4096 (⟨4096, 1048576, 4096, 1052671, 0⟩ : EarlyAllocator) = 0 := by
  have hsh : 1 <<< (a % 64) = 2 ^ a := by
    rw [Nat.mod_eq_of_lt ha, Nat.one_shiftLeft]
  have h0 : wsub s.p_pos (wmul 0 PS) = s.p_pos := by
    unfold wsub wmul
    simp only [Nat.zero_mul, Nat.zero_mod]
    rw [Nat.sub_zero, Nat.add_mod_right]
    exact Nat.mod_eq_of_lt hp
  refine ⟨?_, ?_, by decide, by decide⟩
  · intro hge
    have hle : s.p_pos &&& bumpMask (2 ^ a) ≤ s.p_pos := Nat.and_le_left
    simp only [alloc_pages, hsh, h0]
    rw [if_neg (by omega)]
  · intro hlt
    simp only [alloc_pages, hsh, h0]
    rw [if_pos (Or.inl hlt)]

theorem alloc_pages_zero_consumes_witness :
    12 < 64 ∧ (⟨4096, 1048576, 4096, 1052671, 0⟩ : EarlyAllocator).p_pos < W ∧
    ((⟨4096, 1048576, 4096, 1052671, 0⟩ : EarlyAllocator).b_pos ≤
        1052671 &&& bumpMask (2 ^ 12) →
      alloc_pages 4096 ⟨4096, 1048576, 4096, 1052671, 0⟩ 0 12 =
        (Except.ok (1052671 &&& bumpMask (2 ^ 12)),
         { (⟨4096, 1048576, 4096, 1052671, 0⟩ : EarlyAllocator) with
            p_pos := 1052671 &&& bumpMask (2 ^ 12) })) :=
  ⟨by decide, by decide,
   (alloc_pages_zero_consumes 4096 ⟨4096, 1048576, 4096, 1052671, 0⟩ 12
     (by decide) (by decide)).1⟩

/-- Claim C6 as stated is false: on an allocator whose byte cursor sits at
address 0, a byte allocation that passes the bounds check computes the
pointer 0, and `NonNull::new(0 as *mut u8).unwrap()` panics (modelled as
`none`) instead of returning any result value. -/
theorem alloc_panics_on_null_pointer :
    alloc ⟨0, 256, 0, 256, 0⟩ 1 1 = none := rfl

/-- Claim C6, amended: no allocation call panics provided the byte cursor is
nonzero and the alignment arithmetic does not wrap (`1 ≤ b_pos` and
`b_pos + align ≤ 2 ^ 64`, with a power-of-two alignment); under those
conditions `alloc` always returns a value, `alloc_pages` always returns a
value for any arguments, and the only error either can signal is
`NoMemory`. -/
theorem allocation_no_panic (PS : Nat) (s : EarlyAllocator)
    (size align k num_pages align_pow2 : Nat)
    (halign : align = 2 ^ k) (hk : k ≤ 64)
    (hb : 1 ≤ s.b_pos) (hno : s.b_pos + align ≤ W) :
    (∃ r s2, alloc s size align = some (r, s2) ∧
      ∀ e, r = Except.error e → e = AllocError.NoMemory) ∧
    (∃ r2 s3, alloc_pages PS s num_pages align_pow2 = (r2, s3) ∧
      ∀ e, r2 = Except.error e → e = AllocError.NoMemory) := by
  subst halign
  constructor
  · by_cases hg : s.p_pos < allocEnd s.b_pos (2 ^ k) size
    · refine ⟨Except.error AllocError.NoMemory, s, ?_, ?_⟩
      · simp [alloc, hg]
      · intro e _
        cases e
        rfl
    · have hcand := allocCand_eq_alignUpN (x := s.b_pos) hk hno
      have hbd := alignUpN_bounds s.b_pos (2 ^ k) Nat.one_le_two_pow
      have hnz : allocCand s.b_pos (2 ^ k) ≠ 0 := by omega
      refine ⟨Except.ok (allocCand s.b_pos (2 ^ k)),
        { s with b_pos := allocEnd s.b_pos (2 ^ k) size,
                 count := wadd s.count 1 }, ?_, ?_⟩
      · simp [alloc, hg, hnz]
      · intro e he
        cases he
  · refine ⟨(alloc_pages PS s num_pages align_pow2).1,
      (alloc_pages PS s num_pages align_pow2).2, rfl, ?_⟩
    intro e _
    cases e
    rfl

theorem allocation_no_panic_witness :
    (1 : Nat) = 2 ^ 0 ∧ 0 ≤ 64 ∧
    1 ≤ (⟨4096, 65536, 4096, 69632, 0⟩ : EarlyAllocator).b_pos ∧
    (⟨4096, 65536, 4096, 69632, 0⟩ : EarlyAllocator).b_pos + 1 ≤ W ∧
    ((∃ r s2, alloc ⟨4096, 65536, 4096, 69632, 0⟩ 48 1 = some (r, s2) ∧
       ∀ e, r = Except.error e → e = AllocError.NoMemory) ∧
     (∃ r2 s3, alloc_pages 4096 ⟨4096, 65536, 4096, 69632, 0⟩ 1 12 = (r2, s3) ∧
       ∀ e, r2 = Except.error e → e = AllocError.NoMemory)) :=
  ⟨by decide, by decide, by decide, by decide,
   allocation_no_panic 4096 ⟨4096, 65536, 4096, 69632, 0⟩ 48 1 0 1 12
     (by decide) (by decide) (by decide) (by decide)⟩

/-- Claim C5 as stated is false: a state satisfying the layout invariant on
which a byte allocation's end-of-block computation wraps around `2 ^ 64` can
pass the bounds check, succeed, and set `b_pos` below `start`, breaking the
invariant. -/
theorem inv_not_preserved_by_alloc :
    Inv ⟨100, W - 101, W - 8, W - 1, 0⟩ ∧
    alloc ⟨100, W - 101, W - 8, W - 1, 0⟩ 16 1 =
      some (Except.ok (W - 8), ⟨100, W - 101, 8, W - 1, 1⟩) ∧
    ¬ Inv ⟨100, W - 101, 8, W - 1, 1⟩ :=
  ⟨by decide, rfl, by decide⟩

/-- Claim C5, amended: starting from a state satisfying
`start ≤ b_pos ≤ p_pos ≤ start + size`, every operation yields a state
satisfying it again — `alloc` under the proviso that its arithmetic does not
wrap (`b_pos + align + size ≤ 2 ^ 64`, power-of-two align), `init` for
`size > 0` without overflow, and `dealloc`, `alloc_pages`, `dealloc_pages`,
`add_memory` unconditionally. -/
theorem inv_preserved (s : EarlyAllocator) (hs : Inv s) :
    (∀ size k r s2, s.b_pos + 2 ^ k + size ≤ W →
        alloc s size (2 ^ k) = some (r, s2) → Inv s2) ∧
    (∀ p lsz lal, Inv (dealloc s p lsz lal)) ∧
    (∀ PS n a, Inv (alloc_pages PS s n a).2) ∧
    (∀ p n, Inv (dealloc_pages s p n)) ∧
    (∀ a b, Inv (add_memory s a b).2) ∧
    (∀ st sz, 0 < sz → st + sz < W → Inv (init s st sz)) := by
  obtain ⟨h1, h2, h3⟩ := hs
  refine ⟨?_, ?_, ?_, ?_, ?_, ?_⟩
  · intro size k r s2 hno heq
    have h2k : 1 ≤ 2 ^ k := Nat.one_le_two_pow
    have hkW : 2 ^ k ≤ W := by omega
    have hk : k ≤ 64 :=
      (Nat.pow_le_pow_iff_right (by omega : 1 < 2)).1 hkW
    have hcand := allocCand_eq_alignUpN (x := s.b_pos) hk (by omega)
    have hbd := alignUpN_bounds s.b_pos (2 ^ k) h2k
    have hend : allocEnd s.b_pos (2 ^ k) size =
        alignUpN s.b_pos (2 ^ k) + size := by
      unfold allocEnd
      rw [hcand]
      exact Nat.mod_eq_of_lt (by omega)
    simp only [alloc, hend, hcand] at heq
    split at heq
    · cases heq
      exact ⟨h1, h2, h3⟩
    · next hcond =>
      split at heq
      · cases heq
      · cases heq
        refine ⟨?_, ?_, h3⟩
        · show s.start ≤ alignUpN s.b_pos (2 ^ k) + size
          omega
        · show alignUpN s.b_pos (2 ^ k) + size ≤ s.p_pos
          omega
  · intro p lsz lal
    simp only [dealloc]
    split
    · exact ⟨h1, h2, h3⟩
    · exact ⟨h1, h2, h3⟩
  · intro PS n a
    simp only [alloc_pages]
    split
    · exact ⟨h1, h2, h3⟩
    · next h =>
      refine ⟨h1, ?_, ?_⟩
      · show s.b_pos ≤ wsub s.p_pos (wmul n PS) &&& bumpMask (1 <<< (a % 64))
        omega
      · show wsub s.p_pos (wmul n PS) &&& bumpMask (1 <<< (a % 64)) ≤ s.start + s.size
        omega
  · intro p n
    exact ⟨h1, h2, h3⟩
  · intro a b
    exact ⟨h1, h2, h3⟩
  · intro st sz hsz hno
    have hp : wadd st sz = st + sz := Nat.mod_eq_of_lt hno
    exact ⟨le_refl _, by simp [init, hp], by simp [init, hp]⟩

theorem inv_preserved_witness :
    Inv (⟨4096, 65536, 4096, 69632, 0⟩ : EarlyAllocator) ∧
    Inv (dealloc ⟨4096, 65536, 4096, 69632, 0⟩ 4096 8 8) ∧
    Inv (init ⟨4096, 65536, 4096, 69632, 0⟩ 8192 4096) :=
  ⟨by decide,
   (inv_preserved _ (by decide)).2.1 4096 8 8,
   (inv_preserved _ (by decide)).2.2.2.2.2 8192 4096 (by decide) (by decide)⟩

theorem init_spec_witness :
    0 < 65536 ∧ 4096 + 65536 < W ∧
    ((init ⟨0, 0, 0, 0, 0⟩ 4096 65536).b_pos = 4096 ∧
     (init ⟨0, 0, 0, 0, 0⟩ 4096 65536).p_pos = 4096 + 65536 ∧
     (init ⟨0, 0, 0, 0, 0⟩ 4096 65536).count = 0 ∧
     used_bytes (init ⟨0, 0, 0, 0, 0⟩ 4096 65536) = 0 ∧
     available_bytes (init ⟨0, 0, 0, 0, 0⟩ 4096 65536) = 65536 ∧
     total_bytes (init ⟨0, 0, 0, 0, 0⟩ 4096 65536) = 65536) :=
  ⟨by decide, by decide, init_spec ⟨0, 0, 0, 0, 0⟩ 4096 65536 (by decide) (by decide)⟩

end BumpAlloc
